import Mathlib

/-!
# Verification of the infinite-runner `Game` core

Shallow embedding of the repository's `Game` class (src/src/game/Game.ts and
the lane/math helper modules) over exact rationals.  Floating-point numbers
are modelled as `ℚ`; the exponential-damping helper `damp` (which uses
`Math.exp`) is passed in as an opaque function parameter `dampF`, since no
verified property depends on its values.  `Math.random()` draws are modelled
as a supplied stream `rand : ℕ → ℚ` consumed left to right.
-/

namespace Runner

/-- The four lifecycle states of `GameState` in Game.ts. -/
inductive GState where
  | loading
  | ready
  | running
  | dead
deriving DecidableEq, Repr

/-- `LANES = [-5, 0, 5]`: the z coordinate of each lane index (lane.ts).
Indices are stored as integers, as JavaScript numbers; all accesses in the
source go through `clampLaneIndex`, so only 0, 1, 2 are ever looked up. -/
def lanesZ (i : ℤ) : ℚ :=
  if i ≤ 0 then -5 else if i = 1 then 0 else 5

/-- `clampLaneIndex` from lane.ts:
`if (laneIndex <= 0) return 0; if (laneIndex >= 2) return 2; return laneIndex`. -/
def clampLaneIndex (laneIndex : ℤ) : ℤ :=
  if laneIndex ≤ 0 then 0
  else if laneIndex ≥ 2 then 2
  else laneIndex

/-- A 3-component vector (`THREE.Vector3`), over exact rationals. -/
structure Vec3 where
  x : ℚ
  y : ℚ
  z : ℚ
deriving DecidableEq, Repr

/-- An axis-aligned bounding box (`THREE.Box3`). -/
structure Box3 where
  min : Vec3
  max : Vec3
deriving DecidableEq, Repr

/-- `THREE.Box3.intersectsBox`, the test used by `Game.checkCollisions`;
the library routine tests per-axis interval overlap:
`box.max.x >= this.min.x && box.min.x <= this.max.x` and likewise for y, z.
(External three.js code, hence modelled; `a` plays the role of `this`.) -/
def intersectsBox (a b : Box3) : Bool :=
  decide (a.min.x ≤ b.max.x) && decide (b.min.x ≤ a.max.x) &&
  decide (a.min.y ≤ b.max.y) && decide (b.min.y ≤ a.max.y) &&
  decide (a.min.z ≤ b.max.z) && decide (b.min.z ≤ a.max.z)

/-- One pooled obstacle: its forward (x) coordinate and its lane index
(its z coordinate is `lanesZ lane`). -/
structure Obstacle where
  x : ℚ
  lane : ℤ
deriving DecidableEq, Repr

/-- The tunable configuration fields that the modelled code paths read
(`gameSpeed`, `gravity`, `cameraLead` from the `config` object; the other
fields only affect rendering, which is out of scope). -/
structure Config where
  gameSpeed : ℚ
  gravity : ℚ
  cameraLead : ℚ
deriving DecidableEq, Repr

/-- Seed value of the max-tracking fold.  The source seeds `mostAheadX` with
`-Infinity`; an empty pool never reaches the recycle branch, so any seed is
observationally equal there, and we use `0`. -/
def maxList (xs : List ℚ) : ℚ :=
  match xs with
  | [] => 0
  | x :: rest => rest.foldl max x

/-- Maximum obstacle x coordinate, same convention as `maxList`. -/
def maxObs (obs : List Obstacle) : ℚ :=
  maxList (obs.map Obstacle.x)

/-- The per-segment loop body of `Game.updateFloor`: each segment moves back
by `dx`; a segment that falls below the behind-threshold `-30` is placed at
`mostAheadX + floorSegmentLength` (= 28) and becomes the new `mostAheadX`. -/
def floorGo (dx : ℚ) (mostAhead : ℚ) : List ℚ → List ℚ
  | [] => []
  | x :: rest =>
    let x2 := x - dx
    if x2 < -30 then
      let nx := mostAhead + 28
      nx :: floorGo dx nx rest
    else
      x2 :: floorGo dx mostAhead rest

/-- `Game.updateFloor`: `dx = config.gameSpeed * delta`, `mostAheadX` is the
maximum pre-frame x over the pool, then the recycle pass runs. -/
def updateFloor (gameSpeed delta : ℚ) (xs : List ℚ) : List ℚ :=
  floorGo (gameSpeed * delta) (maxList xs) xs

/-- The per-obstacle loop body of `Game.updateObstacles`: each obstacle moves
back by `dx`; one that falls below the behind-threshold `-26` is given a
random lane `clampLaneIndex ⌊rand * 3⌋` and placed at
`mostAheadX + (16 + rand * 18)`, becoming the new `mostAheadX`.  `k` indexes
the next unread draw of the random stream (two draws per recycle: lane
first, then gap, in source order). -/
def obstacleGo (rand : ℕ → ℚ) (dx : ℚ) (k : ℕ) (mostAhead : ℚ) :
    List Obstacle → List Obstacle
  | [] => []
  | o :: rest =>
    let x2 := o.x - dx
    if x2 < -26 then
      let lane := clampLaneIndex ⌊rand k * 3⌋
      let nx := mostAhead + (16 + rand (k + 1) * 18)
      ⟨nx, lane⟩ :: obstacleGo rand dx (k + 2) nx rest
    else
      ⟨x2, o.lane⟩ :: obstacleGo rand dx k mostAhead rest

/-- `Game.updateObstacles`. -/
def updateObstacles (rand : ℕ → ℚ) (gameSpeed delta : ℚ)
    (obs : List Obstacle) : List Obstacle :=
  obstacleGo rand (gameSpeed * delta) 0 (maxObs obs) obs

/-- The observable result of `Game.prepareModel`: the wrapping
`THREE.Group`'s uniform scale and `userData`, and the wrapped model's
adjusted local position. -/
structure Prepared where
  modelPos : Vec3
  containerScale : ℚ
  baseScale : Option ℚ
  modelHeight : ℚ
deriving DecidableEq, Repr

/-- `Game.prepareModel`: wrap the model in a group, record
`userData.modelHeight`, then — only when `Box3.setFromObject` produced a
finite box (`Number.isFinite(box.min.x)`), modelled as `some b` — recentre
the model at the origin, lift its lowest point to `y = 0`, and auto-scale
the group so the model's height equals `desiredHeight` (recording
`userData.baseScale`); a fresh group has unit scale. -/
def prepareModel (modelPos : Vec3) (box : Option Box3) (desiredHeight : ℚ) :
    Prepared :=
  match box with
  | none =>
    { modelPos := modelPos, containerScale := 1, baseScale := none
      modelHeight := desiredHeight }
  | some b =>
    let center : Vec3 :=
      ⟨(b.min.x + b.max.x) / 2, (b.min.y + b.max.y) / 2, (b.min.z + b.max.z) / 2⟩
    let size : Vec3 :=
      ⟨b.max.x - b.min.x, b.max.y - b.min.y, b.max.z - b.min.z⟩
    let p1 : Vec3 := ⟨modelPos.x - center.x, modelPos.y - center.y, modelPos.z - center.z⟩
    let minYAfterCenter := b.min.y - center.y
    let p2 : Vec3 := ⟨p1.x, p1.y - minYAfterCenter, p1.z⟩
    let height := size.y
    if 0 < height then
      { modelPos := p2, containerScale := desiredHeight / height
        baseScale := some (desiredHeight / height), modelHeight := desiredHeight }
    else
      { modelPos := p2, containerScale := 1, baseScale := none
        modelHeight := desiredHeight }

/-- The mutable fields of the `Game` class touched by the modelled logic.
`playerLoaded` is the null test on `playerRoot`; `playerZ`/`playerPosY` are
`playerRoot.position.z`/`.y`; `notifications` records every `setState`
callback invocation in order (the `onStateChange` option). Rendering-only
state (camera object, parallax layers, mixers, GUI) is out of scope. -/
structure GameM where
  state : GState
  playerLoaded : Bool
  currentLane : ℤ
  targetLane : ℤ
  playerY : ℚ
  playerYVel : ℚ
  grounded : Bool
  playerZ : ℚ
  playerPosY : ℚ
  cameraFollowX : ℚ
  floorXs : List ℚ
  obstacles : List Obstacle
  config : Config
  notifications : List GState
deriving DecidableEq, Repr

/-- The signature of the `damp` helper (math.ts): arguments
`(current, target, smoothing, delta)`.  Its body uses `Math.exp`, so it is
kept opaque; no verified property depends on its values. -/
abbrev DampF := ℚ → ℚ → ℚ → ℚ → ℚ

/-- `Game.setState`: stores the new state and fires the callback. -/
def setState (next : GState) (g : GameM) : GameM :=
  { g with state := next, notifications := g.notifications ++ [next] }

/-- The constant `playerX = -8`. -/
def playerX : ℚ := -8

/-- `Game` field initialisation plus the constructor's `setupFloor`
(6 segments at `-20 + i * 28`); obstacles are created later, in `load`. -/
def initGame : GameM :=
  { state := .loading
    playerLoaded := false
    currentLane := 1
    targetLane := 1
    playerY := 0
    playerYVel := 0
    grounded := true
    playerZ := 0
    playerPosY := 0
    cameraFollowX := 0
    floorXs := (List.range 6).map (fun i : ℕ => -20 + (i : ℚ) * 28)
    obstacles := []
    config := { gameSpeed := 18, gravity := 213 / 5, cameraLead := 193 / 10 }
    notifications := [] }

/-- Completion of `Game.load`: the player model is installed at
`(playerX, 0, LANES[currentLane])`, the 7-obstacle pool is seeded at
`18 + i * 16` in lane `i % 3`, and the state is set to `ready`.  The
promise of `load` resolves at most once per `Game`, which the guard on
`playerLoaded` encodes. -/
def loadDone (g : GameM) : GameM :=
  if g.playerLoaded then g
  else
    setState .ready
      { g with
        playerLoaded := true
        playerZ := lanesZ g.currentLane
        playerPosY := 0
        obstacles := (List.range 7).map
          (fun i : ℕ => ⟨18 + (i : ℚ) * 16, (i : ℤ) % 3⟩) }

/-- `Game.die`: only a running game dies; animation side effects are out of
scope. -/
def die (g : GameM) : GameM :=
  if g.state ≠ .running then g else setState .dead g

/-- `Game.checkCollisions`: the world-space boxes come from asset geometry,
so the outcome of the pairwise `intersectsBox` scan is supplied as the
oracle `hit`; a hit triggers `die`. -/
def checkCollisions (hit : Bool) (g : GameM) : GameM :=
  if !g.playerLoaded then g
  else if hit then die g else g

/-- `Game.updatePlayer`: damp the z position toward the target lane, then
integrate vertical motion when airborne (gravity, then position, then the
landing clamp to `y = 0` that re-grounds the player and zeroes velocity). -/
def updatePlayer (dampF : DampF) (delta : ℚ) (g : GameM) : GameM :=
  if !g.playerLoaded then g
  else
    let g := { g with playerZ := dampF g.playerZ (lanesZ g.targetLane) 18 delta }
    if !g.grounded then
      let v := g.playerYVel - g.config.gravity * delta
      let y := g.playerY + v * delta
      if y ≤ 0 then
        { g with playerY := 0, playerYVel := 0, grounded := true, playerPosY := 0 }
      else
        { g with playerY := y, playerYVel := v, playerPosY := y }
    else
      { g with playerPosY := 0 }

/-- `Game.updateCamera`: damp `cameraFollowX` toward
`playerRoot.position.x + cameraLead` (the camera object itself is
rendering-only). -/
def updateCamera (dampF : DampF) (delta : ℚ) (g : GameM) : GameM :=
  if !g.playerLoaded then g
  else { g with cameraFollowX := dampF g.cameraFollowX (playerX + g.config.cameraLead) 5 delta }

/-- `Game.update`: gate on the lifecycle state, then run the per-frame
updates.  `updateParallax` and the mixer updates touch only rendering
state and are omitted. -/
def update (dampF : DampF) (delta : ℚ) (rand : ℕ → ℚ) (hit : Bool)
    (g : GameM) : GameM :=
  if g.state = .loading then g
  else
    let g := updateCamera dampF delta g
    if g.state = .dead then g
    else if g.state ≠ .running then g
    else
      let g := updatePlayer dampF delta g
      let g := { g with floorXs := updateFloor g.config.gameSpeed delta g.floorXs }
      let g := { g with obstacles := updateObstacles rand g.config.gameSpeed delta g.obstacles }
      checkCollisions hit g

/-- The key codes distinguished by `Game.onKeyDown`. -/
inductive Key where
  | enter
  | arrowLeft
  | keyA
  | arrowRight
  | keyD
  | space
  | other
deriving DecidableEq, Repr

/-- `Game.onKeyDown`: Enter starts a ready game (the clock reset only
rebases the next frame's delta, which the model quantifies over); all other
handling requires the running state: lane shifts through `clampLaneIndex`,
and Space applies the jump impulse 14 only when grounded. -/
def onKeyDown (k : Key) (g : GameM) : GameM :=
  if k = .enter ∧ g.state = .ready then
    setState .running g
  else if g.state ≠ .running then g
  else
    let g :=
      if k = .arrowLeft ∨ k = .keyA then
        { g with targetLane := clampLaneIndex (g.targetLane - 1) }
      else g
    let g :=
      if k = .arrowRight ∨ k = .keyD then
        { g with targetLane := clampLaneIndex (g.targetLane + 1) }
      else g
    if k = .space then
      if !g.grounded then g
      else { g with grounded := false, playerYVel := 14 }
    else g

/-- `Game.restart`: a no-op until the player model is loaded; otherwise
reset lane, vertical state, player transform, camera follow, re-seed the
floor strip and the obstacle pool in place (lengths preserved), and set the
state to `running`. -/
def restart (g : GameM) : GameM :=
  if !g.playerLoaded then g
  else
    setState .running
      { g with
        currentLane := 1
        targetLane := 1
        playerY := 0
        playerYVel := 0
        grounded := true
        playerZ := lanesZ 1
        playerPosY := 0
        cameraFollowX := 0
        floorXs := (List.range g.floorXs.length).map
          (fun i : ℕ => -20 + (i : ℚ) * 28)
        obstacles := (List.range g.obstacles.length).map
          (fun i : ℕ => ⟨18 + (i : ℚ) * 16, (i : ℤ) % 3⟩) }

/-- Externally triggered events at the `Game` boundary: load completion,
a keydown, one animation frame (with its delta, random draws and collision
outcome), a call to the public `restart`, and a debug-panel edit of the two
live-tunable sliders (Game Speed 0–60, Gravity 0–80). -/
inductive Event where
  | loadDone
  | keyDown (k : Key)
  | frame (delta : ℚ) (rand : ℕ → ℚ) (hit : Bool)
  | restartCall
  | tune (gameSpeed gravity : ℚ)

/-- One event step of the game object. -/
def step (dampF : DampF) (e : Event) (g : GameM) : GameM :=
  match e with
  | .loadDone => loadDone g
  | .keyDown k => onKeyDown k g
  | .frame delta rand hit => update dampF delta rand hit g
  | .restartCall => restart g
  | .tune s grav => { g with config := { g.config with gameSpeed := s, gravity := grav } }

/-- The game after a sequence of events, starting from the constructor
state. -/
def run (dampF : DampF) (es : List Event) : GameM :=
  es.foldl (fun g e => step dampF e g) initGame

/-- The target-lane value after a list of key presses. -/
def lanesAfter (ks : List Key) (g : GameM) : GameM :=
  ks.foldl (fun h k => onKeyDown k h) g

/-- The four permitted lifecycle transitions, as a relation between the
state before and after one event step: either the state is unchanged or it
moves along loading→ready, ready→running, running→dead or dead→running. -/
def allowedPair (s s' : GState) : Prop :=
  s' = s ∨
  (s = .loading ∧ s' = .ready) ∨ (s = .ready ∧ s' = .running) ∨
  (s = .running ∧ s' = .dead) ∨ (s = .dead ∧ s' = .running)

/-- Lifecycle invariant of a `Game` object: the player model is absent
exactly while the state is still `loading`. -/
def StateInv (g : GameM) : Prop :=
  g.playerLoaded = false ↔ g.state = .loading

/-- `k` iterations of `updatePlayer` at a fixed frame delta (the constant
per-frame integration of C6). -/
def playerIter (dampF : DampF) (δ : ℚ) (g : GameM) (k : ℕ) : GameM :=
  (fun h => updatePlayer dampF δ h)^[k] g

/-- Closed-form vertical velocity after `k` integration steps of the jump:
`v_k = 14 - gravity * δ * k` with the default gravity `42.6 = 213/5`. -/
def jumpVel (δ : ℚ) (k : ℕ) : ℚ :=
  14 - 213 / 5 * δ * k

/-- Closed-form height after `k` integration steps of the jump
(semi-implicit Euler: the velocity is updated before the position):
`y_k = Σ_{i=1..k} v_i · δ`. -/
def jumpHeight (δ : ℚ) (k : ℕ) : ℚ :=
  14 * k * δ - 213 / 5 * δ ^ 2 * (k * (k + 1)) / 2

/-! ## Theorems -/

/-- `clampLaneIndex` always lands in `{0, 1, 2}`. -/
theorem clampLaneIndex_cases (n : ℤ) :
    clampLaneIndex n = 0 ∨ clampLaneIndex n = 1 ∨ clampLaneIndex n = 2 := by
  simp only [clampLaneIndex]
  split_ifs <;> omega

set_option maxHeartbeats 1000000 in
/-- `onKeyDown` keeps the target lane inside `{0, 1, 2}`. -/
theorem onKeyDown_targetLane_mem (k : Key) (g : GameM)
    (h : g.targetLane = 0 ∨ g.targetLane = 1 ∨ g.targetLane = 2) :
    (onKeyDown k g).targetLane = 0 ∨ (onKeyDown k g).targetLane = 1 ∨
      (onKeyDown k g).targetLane = 2 := by
  cases k <;> simp only [onKeyDown, setState] <;> (try split_ifs) <;>
    simp_all <;>
    first
      | exact h
      | exact clampLaneIndex_cases _

set_option maxHeartbeats 1000000 in
/-- C3: for every sequence of lane-shift key presses the target lane index
stays in `{0, 1, 2}`; a left shift at lane 0 and a right shift at lane 2
are no-ops (they leave the game, in particular the lane index,
unchanged). -/
theorem c3_lane_clamped :
    (∀ (ks : List Key) (g : GameM),
        (g.targetLane = 0 ∨ g.targetLane = 1 ∨ g.targetLane = 2) →
        ((lanesAfter ks g).targetLane = 0 ∨ (lanesAfter ks g).targetLane = 1 ∨
          (lanesAfter ks g).targetLane = 2)) ∧
    (∀ g : GameM, g.targetLane = 0 →
        onKeyDown .arrowLeft g = g ∧ onKeyDown .keyA g = g) ∧
    (∀ g : GameM, g.targetLane = 2 →
        onKeyDown .arrowRight g = g ∧ onKeyDown .keyD g = g) := by
  refine ⟨?_, ?_, ?_⟩
  · intro ks
    induction ks with
    | nil => intro g h; simpa [lanesAfter] using h
    | cons k ks ih =>
      intro g h
      simpa [lanesAfter] using ih (onKeyDown k g) (onKeyDown_targetLane_mem k g h)
  · intro g h
    cases g
    constructor <;>
      · simp only [onKeyDown]
        split_ifs <;> simp_all [clampLaneIndex]
  · intro g h
    cases g
    constructor <;>
      · simp only [onKeyDown]
        split_ifs <;> simp_all [clampLaneIndex]

/-- Witness for C3 at a concrete game: from lane 0, a left-shift key leaves
the game unchanged, and a burst of key presses keeps the lane in range. -/
theorem c3_lane_clamped_witness :
    ((loadDone initGame).targetLane = 0 ∨ (loadDone initGame).targetLane = 1 ∨
      (loadDone initGame).targetLane = 2) ∧
    ((lanesAfter [.arrowLeft, .arrowLeft, .arrowRight, .keyD, .keyD, .keyD]
        (loadDone initGame)).targetLane = 0 ∨
     (lanesAfter [.arrowLeft, .arrowLeft, .arrowRight, .keyD, .keyD, .keyD]
        (loadDone initGame)).targetLane = 1 ∨
     (lanesAfter [.arrowLeft, .arrowLeft, .arrowRight, .keyD, .keyD, .keyD]
        (loadDone initGame)).targetLane = 2) := by
  refine ⟨by decide, c3_lane_clamped.1 _ (loadDone initGame) (by decide)⟩

/-- C8: the axis-aligned box intersection test used by `checkCollisions` is
symmetric in its two arguments. -/
theorem c8_intersects_symm (a b : Box3) :
    intersectsBox a b = intersectsBox b a := by
  simp only [intersectsBox]
  rw [Bool.eq_iff_iff]
  simp only [Bool.and_eq_true, decide_eq_true_eq]
  tauto

/-- C9: when the computed bounding box is missing/non-finite, `prepareModel`
returns the wrapping container unchanged — no centering or ground-lift of
the model position, unit container scale, no `baseScale` — and, being a
total function, never throws. -/
theorem c9_prepare_missing_box (pos : Vec3) (desiredHeight : ℚ) :
    prepareModel pos none desiredHeight =
      { modelPos := pos, containerScale := 1, baseScale := none
        modelHeight := desiredHeight } :=
  rfl

/-- C10: calling the public `restart` before the player model is present is
a silent no-op: the entire game value — state, lane, player fields, pools,
and the callback log — is returned unchanged. -/
theorem c10_restart_before_load (g : GameM) (h : g.playerLoaded = false) :
    restart g = g := by
  simp [restart, h]

/-- Witness for C10: restarting the freshly constructed (still loading)
game changes nothing. -/
theorem c10_restart_before_load_witness :
    initGame.playerLoaded = false ∧ restart initGame = initGame :=
  ⟨rfl, c10_restart_before_load initGame rfl⟩

/-- C5: with the player model loaded, `restart` resets the game to its
initial layout: lanes 1, vertical position and velocity 0, grounded, camera
follow offset 0, floor segment `i` at `-20 + i * 28`, obstacle `i` at
`18 + i * 16` in lane `i % 3`, and the state running. -/
theorem c5_restart_resets (g : GameM) (h : g.playerLoaded = true) :
    (restart g).state = .running ∧
    (restart g).currentLane = 1 ∧ (restart g).targetLane = 1 ∧
    (restart g).playerY = 0 ∧ (restart g).playerYVel = 0 ∧
    (restart g).grounded = true ∧ (restart g).cameraFollowX = 0 ∧
    (restart g).floorXs.length = g.floorXs.length ∧
    (restart g).obstacles.length = g.obstacles.length ∧
    (∀ i, i < g.floorXs.length →
        (restart g).floorXs[i]? = some (-20 + (i : ℚ) * 28)) ∧
    (∀ i, i < g.obstacles.length →
        (restart g).obstacles[i]? = some ⟨18 + (i : ℚ) * 16, (i : ℤ) % 3⟩) := by
  have hr : restart g = setState .running
      { g with
        currentLane := 1
        targetLane := 1
        playerY := 0
        playerYVel := 0
        grounded := true
        playerZ := lanesZ 1
        playerPosY := 0
        cameraFollowX := 0
        floorXs := (List.range g.floorXs.length).map
          (fun i : ℕ => -20 + (i : ℚ) * 28)
        obstacles := (List.range g.obstacles.length).map
          (fun i : ℕ => ⟨18 + (i : ℚ) * 16, (i : ℤ) % 3⟩) } := by
    simp only [restart, h, Bool.not_true, Bool.false_eq_true, if_false]
  refine ⟨by simp [hr, setState], by simp [hr, setState], by simp [hr, setState],
    by simp [hr, setState], by simp [hr, setState], by simp [hr, setState],
    by simp [hr, setState], by simp [hr, setState], by simp [hr, setState],
    ?_, ?_⟩
  · intro i hi
    simp [hr, setState, List.getElem?_map, List.getElem?_range hi]
  · intro i hi
    simp [hr, setState, List.getElem?_map, List.getElem?_range hi]

/-- Witness for C5: restarting the game right after load completion. -/
theorem c5_restart_resets_witness :
    (loadDone initGame).playerLoaded = true ∧
    (restart (loadDone initGame)).state = .running ∧
    (restart (loadDone initGame)).floorXs[2]? = some (-20 + ((2 : ℕ) : ℚ) * 28) ∧
    (restart (loadDone initGame)).obstacles[4]? =
      some ⟨18 + ((4 : ℕ) : ℚ) * 16, ((4 : ℕ) : ℤ) % 3⟩ := by
  have h := c5_restart_resets (loadDone initGame) rfl
  exact ⟨rfl, h.1,
    h.2.2.2.2.2.2.2.2.2.1 2 (by decide),
    h.2.2.2.2.2.2.2.2.2.2 4 (by decide)⟩

/-- C7: with world speed 18 and the floor behind-threshold `-30`, a segment
at `x = -31` before the frame (here with the five other segments of the
initial strip ahead of it) ends the frame at the maximum existing segment
x (109) plus the segment length 28; for deltas up to `3/2` no other
segment recycles. -/
theorem c7_floor_scenario (δ : ℚ) (h0 : 0 ≤ δ) (h1 : δ ≤ 3 / 2) :
    updateFloor 18 δ [-31, -3, 25, 53, 81, 109] =
      [maxList [-31, -3, 25, 53, 81, 109] + 28,
        -3 - 18 * δ, 25 - 18 * δ, 53 - 18 * δ, 81 - 18 * δ, 109 - 18 * δ] := by
  have hmax : maxList [-31, -3, 25, 53, 81, 109] = (109 : ℚ) := by
    norm_num [maxList, max_def]
  have e1 : (-31 : ℚ) - 18 * δ < -30 := by linarith
  have e2 : ¬((-3 : ℚ) - 18 * δ < -30) := by linarith
  have e3 : ¬((25 : ℚ) - 18 * δ < -30) := by linarith
  have e4 : ¬((53 : ℚ) - 18 * δ < -30) := by linarith
  have e5 : ¬((81 : ℚ) - 18 * δ < -30) := by linarith
  have e6 : ¬((109 : ℚ) - 18 * δ < -30) := by linarith
  simp only [updateFloor, hmax, floorGo, if_pos e1, if_neg e2, if_neg e3,
    if_neg e4, if_neg e5, if_neg e6]

/-- Witness for C7 at delta `1`. -/
theorem c7_floor_scenario_witness :
    (0 : ℚ) ≤ 1 ∧ (1 : ℚ) ≤ 3 / 2 ∧
    updateFloor 18 1 [-31, -3, 25, 53, 81, 109] =
      [maxList [-31, -3, 25, 53, 81, 109] + 28,
        -3 - 18 * 1, 25 - 18 * 1, 53 - 18 * 1, 81 - 18 * 1, 109 - 18 * 1] :=
  ⟨by norm_num, by norm_num, c7_floor_scenario 1 (by norm_num) (by norm_num)⟩

/-- C4: whenever the state is not `running`, the per-frame `update` leaves
the floor segment positions, obstacle positions, the player's vertical
position and velocity (and the rendered transform), and the lane state all
unchanged. -/
theorem c4_frozen_outside_running (dampF : DampF) (δ : ℚ) (rand : ℕ → ℚ)
    (hit : Bool) (g : GameM) (h : g.state ≠ .running) :
    (update dampF δ rand hit g).floorXs = g.floorXs ∧
    (update dampF δ rand hit g).obstacles = g.obstacles ∧
    (update dampF δ rand hit g).playerY = g.playerY ∧
    (update dampF δ rand hit g).playerYVel = g.playerYVel ∧
    (update dampF δ rand hit g).grounded = g.grounded ∧
    (update dampF δ rand hit g).playerZ = g.playerZ ∧
    (update dampF δ rand hit g).playerPosY = g.playerPosY ∧
    (update dampF δ rand hit g).currentLane = g.currentLane ∧
    (update dampF δ rand hit g).targetLane = g.targetLane := by
  simp only [update, updateCamera]
  split_ifs <;> simp_all

/-- Witness for C4: one frame on the just-loaded (`ready`) game moves
nothing. -/
theorem c4_frozen_outside_running_witness :
    (loadDone initGame).state ≠ GState.running ∧
    (update (fun c _ _ _ => c) 1 (fun _ => 0) false (loadDone initGame)).floorXs =
      (loadDone initGame).floorXs ∧
    (update (fun c _ _ _ => c) 1 (fun _ => 0) false (loadDone initGame)).obstacles =
      (loadDone initGame).obstacles ∧
    (update (fun c _ _ _ => c) 1 (fun _ => 0) false (loadDone initGame)).playerY =
      (loadDone initGame).playerY := by
  have h := c4_frozen_outside_running (fun c _ _ _ => c) 1 (fun _ => 0) false
    (loadDone initGame) (by decide)
  exact ⟨by decide, h.1, h.2.1, h.2.2.1⟩

/-- Every suffix fold of `max` dominates its seed. -/
theorem foldl_max_ge_init (xs : List ℚ) (a : ℚ) : a ≤ xs.foldl max a := by
  induction xs generalizing a with
  | nil => exact le_refl a
  | cons x rest ih => exact le_trans (le_max_left a x) (ih (max a x))

/-- Every element of a list is at most the `max` fold over it. -/
theorem foldl_max_ge_mem (xs : List ℚ) (a x : ℚ) (hx : x ∈ xs) :
    x ≤ xs.foldl max a := by
  induction xs generalizing a with
  | nil => cases hx
  | cons y rest ih =>
    rcases List.mem_cons.mp hx with h | h
    · subst h
      exact le_trans (le_max_right a x) (foldl_max_ge_init rest (max a x))
    · exact ih (max a y) h

/-- Every member of a pool is at most the pool's `mostAheadX` seed. -/
theorem le_maxList (xs : List ℚ) (x : ℚ) (hx : x ∈ xs) : x ≤ maxList xs := by
  cases xs with
  | nil => cases hx
  | cons y rest =>
    rcases List.mem_cons.mp hx with h | h
    · subst h; exact foldl_max_ge_init rest x
    · exact foldl_max_ge_mem rest y x h

/-- The floor recycle pass preserves the pool size. -/
theorem floorGo_length (dx m : ℚ) (xs : List ℚ) :
    (floorGo dx m xs).length = xs.length := by
  induction xs generalizing m with
  | nil => rfl
  | cons x rest ih =>
    simp only [floorGo]
    split_ifs <;> simp [ih]

/-- A floor segment that stays above the behind-threshold just moves back by
`dx`. -/
theorem floorGo_not_recycled (dx m : ℚ) (xs : List ℚ) (i : ℕ) (xi yi : ℚ)
    (hx : xs[i]? = some xi) (hy : (floorGo dx m xs)[i]? = some yi)
    (hnr : ¬(xi - dx < -30)) : yi = xi - dx := by
  induction xs generalizing m i with
  | nil => simp at hx
  | cons x rest ih =>
    cases i with
    | zero =>
      rw [List.getElem?_cons_zero, Option.some_inj] at hx
      subst hx
      simp only [floorGo, if_neg hnr, List.getElem?_cons_zero,
        Option.some_inj] at hy
      exact hy.symm
    | succ n =>
      rw [List.getElem?_cons_succ] at hx
      simp only [floorGo] at hy
      split_ifs at hy with hc <;>
        · rw [List.getElem?_cons_succ] at hy
          exact ih _ _ hx hy

/-- A recycled floor segment ends strictly ahead of the running
`mostAheadX`. -/
theorem floorGo_recycled_gt (dx m : ℚ) (xs : List ℚ) (i : ℕ) (xi yi : ℚ)
    (hx : xs[i]? = some xi) (hy : (floorGo dx m xs)[i]? = some yi)
    (hr : xi - dx < -30) : m < yi := by
  induction xs generalizing m i with
  | nil => simp at hx
  | cons x rest ih =>
    cases i with
    | zero =>
      rw [List.getElem?_cons_zero, Option.some_inj] at hx
      subst hx
      simp only [floorGo, if_pos hr, List.getElem?_cons_zero,
        Option.some_inj] at hy
      subst hy
      linarith
    | succ n =>
      rw [List.getElem?_cons_succ] at hx
      simp only [floorGo] at hy
      split_ifs at hy with hc
      · rw [List.getElem?_cons_succ] at hy
        have := ih _ _ hx hy
        linarith
      · rw [List.getElem?_cons_succ] at hy
        exact ih _ _ hx hy

/-- Two floor segments recycled in the same pass end at strictly increasing
coordinates, in processing order. -/
theorem floorGo_recycled_increasing (dx m : ℚ) (xs : List ℚ) (i j : ℕ)
    (xi xj yi yj : ℚ) (hij : i < j)
    (hxi : xs[i]? = some xi) (hxj : xs[j]? = some xj)
    (hyi : (floorGo dx m xs)[i]? = some yi)
    (hyj : (floorGo dx m xs)[j]? = some yj)
    (hri : xi - dx < -30) (hrj : xj - dx < -30) : yi < yj := by
  induction xs generalizing m i j with
  | nil => simp at hxi
  | cons x rest ih =>
    cases i with
    | zero =>
      rw [List.getElem?_cons_zero, Option.some_inj] at hxi
      subst hxi
      obtain ⟨n, rfl⟩ : ∃ n, j = n + 1 := ⟨j - 1, by omega⟩
      rw [List.getElem?_cons_succ] at hxj
      simp only [floorGo, if_pos hri, List.getElem?_cons_zero,
        Option.some_inj, List.getElem?_cons_succ] at hyi hyj
      subst hyi
      exact floorGo_recycled_gt dx _ rest n xj yj hxj hyj hrj
    | succ ni =>
      obtain ⟨nj, rfl⟩ : ∃ nj, j = nj + 1 := ⟨j - 1, by omega⟩
      rw [List.getElem?_cons_succ] at hxi hxj
      simp only [floorGo] at hyi hyj
      split_ifs at hyi hyj with hc <;>
        · rw [List.getElem?_cons_succ] at hyi hyj
          exact ih _ _ _ (by omega) hxi hxj hyi hyj

/-- The obstacle recycle pass preserves the pool size. -/
theorem obstacleGo_length (rand : ℕ → ℚ) (dx : ℚ) (k : ℕ) (m : ℚ)
    (obs : List Obstacle) :
    (obstacleGo rand dx k m obs).length = obs.length := by
  induction obs generalizing k m with
  | nil => rfl
  | cons o rest ih =>
    simp only [obstacleGo]
    split_ifs <;> simp [ih]

/-- An obstacle that stays above the behind-threshold just moves back by
`dx`. -/
theorem obstacleGo_not_recycled (rand : ℕ → ℚ) (dx : ℚ) (k : ℕ) (m : ℚ)
    (obs : List Obstacle) (i : ℕ) (oi oi' : Obstacle)
    (hx : obs[i]? = some oi) (hy : (obstacleGo rand dx k m obs)[i]? = some oi')
    (hnr : ¬(oi.x - dx < -26)) : oi'.x = oi.x - dx := by
  induction obs generalizing k m i with
  | nil => simp at hx
  | cons o rest ih =>
    cases i with
    | zero =>
      rw [List.getElem?_cons_zero, Option.some_inj] at hx
      subst hx
      simp only [obstacleGo, if_neg hnr, List.getElem?_cons_zero,
        Option.some_inj] at hy
      subst hy
      rfl
    | succ n =>
      rw [List.getElem?_cons_succ] at hx
      simp only [obstacleGo] at hy
      split_ifs at hy with hc <;>
        · rw [List.getElem?_cons_succ] at hy
          exact ih _ _ _ hx hy

/-- With non-negative random draws, a recycled obstacle ends strictly ahead
of the running `mostAheadX`. -/
theorem obstacleGo_recycled_gt (rand : ℕ → ℚ) (hra : ∀ n, 0 ≤ rand n)
    (dx : ℚ) (k : ℕ) (m : ℚ) (obs : List Obstacle) (i : ℕ) (oi oi' : Obstacle)
    (hx : obs[i]? = some oi) (hy : (obstacleGo rand dx k m obs)[i]? = some oi')
    (hr : oi.x - dx < -26) : m < oi'.x := by
  induction obs generalizing k m i with
  | nil => simp at hx
  | cons o rest ih =>
    cases i with
    | zero =>
      rw [List.getElem?_cons_zero, Option.some_inj] at hx
      subst hx
      simp only [obstacleGo, if_pos hr, List.getElem?_cons_zero,
        Option.some_inj] at hy
      subst hy
      show m < m + (16 + rand (k + 1) * 18)
      linarith [hra (k + 1)]
    | succ n =>
      rw [List.getElem?_cons_succ] at hx
      simp only [obstacleGo] at hy
      split_ifs at hy with hc
      · rw [List.getElem?_cons_succ] at hy
        have := ih _ _ _ hx hy
        linarith [hra (k + 1)]
      · rw [List.getElem?_cons_succ] at hy
        exact ih _ _ _ hx hy

/-- Two obstacles recycled in the same pass end at strictly increasing
coordinates, in processing order. -/
theorem obstacleGo_recycled_increasing (rand : ℕ → ℚ) (hra : ∀ n, 0 ≤ rand n)
    (dx : ℚ) (k : ℕ) (m : ℚ) (obs : List Obstacle) (i j : ℕ)
    (oi oj oi' oj' : Obstacle) (hij : i < j)
    (hxi : obs[i]? = some oi) (hxj : obs[j]? = some oj)
    (hyi : (obstacleGo rand dx k m obs)[i]? = some oi')
    (hyj : (obstacleGo rand dx k m obs)[j]? = some oj')
    (hri : oi.x - dx < -26) (hrj : oj.x - dx < -26) : oi'.x < oj'.x := by
  induction obs generalizing k m i j with
  | nil => simp at hxi
  | cons o rest ih =>
    cases i with
    | zero =>
      rw [List.getElem?_cons_zero, Option.some_inj] at hxi
      subst hxi
      obtain ⟨n, rfl⟩ : ∃ n, j = n + 1 := ⟨j - 1, by omega⟩
      rw [List.getElem?_cons_succ] at hxj
      simp only [obstacleGo, if_pos hri, List.getElem?_cons_zero,
        Option.some_inj, List.getElem?_cons_succ] at hyi hyj
      subst hyi
      have hgt := obstacleGo_recycled_gt rand hra dx _ _ rest n oj oj' hxj hyj hrj
      show m + (16 + rand (k + 1) * 18) < oj'.x
      exact hgt
    | succ ni =>
      obtain ⟨nj, rfl⟩ : ∃ nj, j = nj + 1 := ⟨j - 1, by omega⟩
      rw [List.getElem?_cons_succ] at hxi hxj
      simp only [obstacleGo] at hyi hyj
      split_ifs at hyi hyj with hc <;>
        · rw [List.getElem?_cons_succ] at hyi hyj
          exact ih _ _ _ _ (by omega) hxi hxj hyi hyj

set_option maxHeartbeats 2000000 in
/-- C2 as written is false: with delta 3 (≥ 0) on the initial floor strip,
segments 0 and 1 both fall below the behind-threshold `-30` and are both
recycled; segment 0 is repositioned to 148, yet segment 1 ends the frame at
176, so the recycled segment 0 is not strictly ahead of every other pool
member at the end of the frame. -/
theorem c2_counterexample :
    (0 : ℚ) ≤ 3 ∧
    ((-20 : ℚ) - 18 * 3 < -30 ∧ (8 : ℚ) - 18 * 3 < -30) ∧
    updateFloor 18 3 [-20, 8, 36, 64, 92, 120] = [148, 176, -18, 10, 38, 66] ∧
    ¬(176 < (148 : ℚ)) := by
  refine ⟨by norm_num, ⟨by norm_num, by norm_num⟩, ?_, by norm_num⟩
  have hmax : maxList [-20, 8, 36, 64, 92, 120] = (120 : ℚ) := by
    norm_num [maxList, max_def]
  have e1 : (-20 : ℚ) - 18 * 3 < -30 := by norm_num
  have e2 : (8 : ℚ) - 18 * 3 < -30 := by norm_num
  have e3 : ¬((36 : ℚ) - 18 * 3 < -30) := by norm_num
  have e4 : ¬((64 : ℚ) - 18 * 3 < -30) := by norm_num
  have e5 : ¬((92 : ℚ) - 18 * 3 < -30) := by norm_num
  have e6 : ¬((120 : ℚ) - 18 * 3 < -30) := by norm_num
  simp only [updateFloor, hmax, floorGo, if_pos e1, if_pos e2, if_neg e3,
    if_neg e4, if_neg e5, if_neg e6]
  norm_num

/-- C2 amended: for every frame-time delta ≥ 0 (with non-negative world
speed and random draws), a pool member recycled by `updateFloor` or
`updateObstacles` is repositioned strictly ahead of the pre-frame maximum
coordinate of the pool — hence strictly ahead of its own old position
(never a negative coordinate jump) and strictly ahead of every non-recycled
member's end-of-frame position; members recycled in the same frame end at
strictly increasing coordinates in processing order (so the claim's
end-of-frame form holds against all but the later-recycled members, and in
particular whenever at most one member recycles in the frame). -/
theorem c2_recycled_ahead :
    (∀ (speed δ : ℚ) (xs : List ℚ), 0 ≤ speed → 0 ≤ δ →
      (updateFloor speed δ xs).length = xs.length ∧
      (∀ (i : ℕ) (xi yi : ℚ), xs[i]? = some xi →
        (updateFloor speed δ xs)[i]? = some yi →
        (¬(xi - speed * δ < -30) → yi = xi - speed * δ) ∧
        (xi - speed * δ < -30 → maxList xs < yi ∧ xi < yi)) ∧
      (∀ (i j : ℕ) (xi xj yi yj : ℚ), xs[i]? = some xi → xs[j]? = some xj →
        (updateFloor speed δ xs)[i]? = some yi →
        (updateFloor speed δ xs)[j]? = some yj →
        xi - speed * δ < -30 →
        (¬(xj - speed * δ < -30) → yj < yi) ∧
        (xj - speed * δ < -30 → i < j → yi < yj))) ∧
    (∀ (rand : ℕ → ℚ) (speed δ : ℚ) (obs : List Obstacle),
      (∀ n, 0 ≤ rand n) → 0 ≤ speed → 0 ≤ δ →
      (updateObstacles rand speed δ obs).length = obs.length ∧
      (∀ (i : ℕ) (oi oi' : Obstacle), obs[i]? = some oi →
        (updateObstacles rand speed δ obs)[i]? = some oi' →
        (¬(oi.x - speed * δ < -26) → oi'.x = oi.x - speed * δ) ∧
        (oi.x - speed * δ < -26 → maxObs obs < oi'.x ∧ oi.x < oi'.x)) ∧
      (∀ (i j : ℕ) (oi oj oi' oj' : Obstacle), obs[i]? = some oi → obs[j]? = some oj →
        (updateObstacles rand speed δ obs)[i]? = some oi' →
        (updateObstacles rand speed δ obs)[j]? = some oj' →
        oi.x - speed * δ < -26 →
        (¬(oj.x - speed * δ < -26) → oj'.x < oi'.x) ∧
        (oj.x - speed * δ < -26 → i < j → oi'.x < oj'.x))) := by
  constructor
  · intro speed δ xs hsp hδ
    have hdx : 0 ≤ speed * δ := mul_nonneg hsp hδ
    refine ⟨floorGo_length _ _ _, ?_, ?_⟩
    · intro i xi yi hx hy
      refine ⟨floorGo_not_recycled _ _ _ _ _ _ hx hy, ?_⟩
      intro hr
      have hgt := floorGo_recycled_gt _ _ _ _ _ _ hx hy hr
      have hmem := le_maxList xs xi (List.getElem?_mem hx)
      exact ⟨hgt, lt_of_le_of_lt hmem hgt⟩
    · intro i j xi xj yi yj hxi hxj hyi hyj hri
      constructor
      · intro hnrj
        have hji := floorGo_not_recycled _ _ _ _ _ _ hxj hyj hnrj
        have hgt := floorGo_recycled_gt _ _ _ _ _ _ hxi hyi hri
        have hmem := le_maxList xs xj (List.getElem?_mem hxj)
        rw [hji]
        calc xj - speed * δ ≤ xj := by linarith
          _ ≤ maxList xs := hmem
          _ < yi := hgt
      · intro hrj hij
        exact floorGo_recycled_increasing _ _ _ _ _ _ _ _ _ hij hxi hxj hyi hyj hri hrj
  · intro rand speed δ obs hra hsp hδ
    have hdx : 0 ≤ speed * δ := mul_nonneg hsp hδ
    refine ⟨obstacleGo_length _ _ _ _ _, ?_, ?_⟩
    · intro i oi oi' hx hy
      refine ⟨obstacleGo_not_recycled _ _ _ _ _ _ _ _ hx hy, ?_⟩
      intro hr
      have hgt := obstacleGo_recycled_gt rand hra _ _ _ _ _ _ _ hx hy hr
      have hmem : oi.x ≤ maxObs obs := by
        apply le_maxList
        exact List.mem_map_of_mem Obstacle.x (List.getElem?_mem hx)
      exact ⟨hgt, lt_of_le_of_lt hmem hgt⟩
    · intro i j oi oj oi' oj' hxi hxj hyi hyj hri
      constructor
      · intro hnrj
        have hji := obstacleGo_not_recycled _ _ _ _ _ _ _ _ hxj hyj hnrj
        have hgt := obstacleGo_recycled_gt rand hra _ _ _ _ _ _ _ hxi hyi hri
        have hmem : oj.x ≤ maxObs obs := by
          apply le_maxList
          exact List.mem_map_of_mem Obstacle.x (List.getElem?_mem hxj)
        rw [hji]
        calc oj.x - speed * δ ≤ oj.x := by linarith
          _ ≤ maxObs obs := hmem
          _ < oi'.x := hgt
      · intro hrj hij
        exact obstacleGo_recycled_increasing rand hra _ _ _ _ _ _ _ _ _ _ hij
          hxi hxj hyi hyj hri hrj

/-- Witness for the amended C2 on a concrete pool: sizes are preserved and a
surviving segment just moves back by `dx`. -/
theorem c2_recycled_ahead_witness :
    (0 : ℚ) ≤ 18 ∧ (0 : ℚ) ≤ 1 ∧
    (updateFloor 18 1 [-31, 109]).length = [(-31 : ℚ), 109].length ∧
    (91 : ℚ) = 109 - 18 * 1 := by
  have h := c2_recycled_ahead.1 18 1 [-31, 109] (by norm_num) (by norm_num)
  refine ⟨by norm_num, by norm_num, h.1, ?_⟩
  have hmax : maxList [-31, 109] = (109 : ℚ) := by
    norm_num [maxList, max_def]
  have e1 : (-31 : ℚ) - 18 * 1 < -30 := by norm_num
  have e2 : ¬((109 : ℚ) - 18 * 1 < -30) := by norm_num
  have hup : updateFloor 18 1 [-31, 109] = [137, 91] := by
    simp only [updateFloor, hmax, floorGo, if_pos e1, if_neg e2]
    norm_num
  have h2 := (h.2.1 1 109 91 (by norm_num) (by rw [hup]; rfl)).1 (by norm_num)
  exact h2

/-- `updateCamera` touches only the camera follow coordinate. -/
theorem updateCamera_basic (dampF : DampF) (δ : ℚ) (g : GameM) :
    (updateCamera dampF δ g).state = g.state ∧
    (updateCamera dampF δ g).playerLoaded = g.playerLoaded := by
  simp only [updateCamera]
  split_ifs <;> exact ⟨rfl, rfl⟩

/-- `updatePlayer` touches neither the lifecycle state, the loaded flag nor
the configuration. -/
theorem updatePlayer_basic (dampF : DampF) (δ : ℚ) (g : GameM) :
    (updatePlayer dampF δ g).state = g.state ∧
    (updatePlayer dampF δ g).playerLoaded = g.playerLoaded ∧
    (updatePlayer dampF δ g).config = g.config := by
  simp only [updatePlayer]
  split_ifs <;> exact ⟨rfl, rfl, rfl⟩

set_option maxHeartbeats 1000000 in
/-- How one event step can move the pair (state, loaded flag): unchanged,
load completion, start of a ready game, death of a running game, or a
completed restart. -/
theorem step_state_loaded (dampF : DampF) (e : Event) (g : GameM) :
    ((step dampF e g).state = g.state ∧
      (step dampF e g).playerLoaded = g.playerLoaded) ∨
    (g.playerLoaded = false ∧ (step dampF e g).state = .ready ∧
      (step dampF e g).playerLoaded = true ∧ e = .loadDone) ∨
    (g.state = .ready ∧ (step dampF e g).state = .running ∧
      (step dampF e g).playerLoaded = g.playerLoaded) ∨
    (g.state = .running ∧ (step dampF e g).state = .dead ∧
      (step dampF e g).playerLoaded = g.playerLoaded) ∨
    (g.playerLoaded = true ∧ (step dampF e g).state = .running ∧
      (step dampF e g).playerLoaded = true ∧ e = .restartCall) := by
  cases e with
  | loadDone =>
    by_cases hl : g.playerLoaded
    · exact Or.inl (by simp [step, loadDone, hl])
    · refine Or.inr (Or.inl ?_)
      simp only [Bool.not_eq_true] at hl
      simp [step, loadDone, hl, setState]
  | keyDown k =>
    simp only [step, onKeyDown]
    split_ifs with h1 h2 h3 h4
    · exact Or.inr (Or.inr (Or.inl ⟨h1.2, rfl, rfl⟩))
    · exact Or.inl ⟨rfl, rfl⟩
    all_goals refine Or.inl ⟨?_, ?_⟩ <;> rfl
  | frame δ rand hit =>
    simp only [step, update]
    split_ifs with h1 h2 h3
    · exact Or.inl ⟨rfl, rfl⟩
    · exact Or.inl ⟨(updateCamera_basic dampF δ g).1,
        (updateCamera_basic dampF δ g).2⟩
    · exact Or.inl ⟨(updateCamera_basic dampF δ g).1,
        (updateCamera_basic dampF δ g).2⟩
    · have hrun : g.state = .running := by
        have := (updateCamera_basic dampF δ g).1
        simp only [ne_eq, Decidable.not_not] at h3
        rw [← this]; exact h3
      have hps := updatePlayer_basic dampF δ (updateCamera dampF δ g)
      have hcs := updateCamera_basic dampF δ g
      simp only [checkCollisions]
      split_ifs with hnl hh
      · exact Or.inl ⟨hps.1.trans hcs.1, hps.2.1.trans hcs.2⟩
      · simp only [die]
        split_ifs with hnr
        · exact Or.inl ⟨hps.1.trans hcs.1, hps.2.1.trans hcs.2⟩
        · refine Or.inr (Or.inr (Or.inr (Or.inl ⟨hrun, rfl, ?_⟩)))
          simp only [setState]
          exact hps.2.1.trans hcs.2
      · exact Or.inl ⟨hps.1.trans hcs.1, hps.2.1.trans hcs.2⟩
  | restartCall =>
    by_cases hl : g.playerLoaded
    · refine Or.inr (Or.inr (Or.inr (Or.inr ⟨hl, ?_, ?_, rfl⟩))) <;>
        simp [step, restart, hl, setState]
    · simp only [Bool.not_eq_true] at hl
      exact Or.inl (by simp [step, restart, hl])
  | tune s grav => exact Or.inl ⟨rfl, rfl⟩

/-- One event step preserves the lifecycle invariant. -/
theorem step_preserves_inv (dampF : DampF) (e : Event) (g : GameM)
    (h : StateInv g) : StateInv (step dampF e g) := by
  rcases step_state_loaded dampF e g with
    ⟨h1, h2⟩ | ⟨h1, h2, h3, _⟩ | ⟨h1, h2, h3⟩ | ⟨h1, h2, h3⟩ | ⟨h1, h2, h3, _⟩
  · unfold StateInv at h ⊢
    rw [h1, h2]; exact h
  · unfold StateInv
    rw [h2, h3]; simp
  · have hl : g.playerLoaded = true := by
      rcases Bool.eq_false_or_eq_true g.playerLoaded with ht | hf
      · exact ht
      · rw [h.mp hf] at h1; cases h1
    unfold StateInv
    rw [h2, h3, hl]; simp
  · have hl : g.playerLoaded = true := by
      rcases Bool.eq_false_or_eq_true g.playerLoaded with ht | hf
      · exact ht
      · rw [h.mp hf] at h1; cases h1
    unfold StateInv
    rw [h2, h3, hl]; simp
  · unfold StateInv
    rw [h2, h3]; simp

/-- One event step only moves the state along a permitted transition. -/
theorem step_allowed (dampF : DampF) (e : Event) (g : GameM)
    (h : StateInv g) : allowedPair g.state (step dampF e g).state := by
  rcases step_state_loaded dampF e g with
    ⟨h1, _⟩ | ⟨h1, h2, _, _⟩ | ⟨h1, h2, _⟩ | ⟨h1, h2, _⟩ | ⟨h1, h2, _, _⟩
  · exact Or.inl h1
  · exact Or.inr (Or.inl ⟨h.mp h1, h2⟩)
  · exact Or.inr (Or.inr (Or.inl ⟨h1, h2⟩))
  · exact Or.inr (Or.inr (Or.inr (Or.inl ⟨h1, h2⟩)))
  · have hnl : g.state ≠ .loading := by
      intro hs
      rw [h.mpr hs] at h1; cases h1
    cases hs : g.state with
    | loading => exact absurd hs hnl
    | ready => exact Or.inr (Or.inr (Or.inl ⟨rfl, h2⟩))
    | running => exact Or.inl h2
    | dead => exact Or.inr (Or.inr (Or.inr (Or.inr ⟨rfl, h2⟩)))

/-- The constructor state satisfies the lifecycle invariant. -/
theorem stateInv_init : StateInv initGame := by
  simp [StateInv, initGame]

/-- The lifecycle invariant holds after every sequence of events. -/
theorem run_inv (dampF : DampF) (es : List Event) : StateInv (run dampF es) := by
  suffices h : ∀ g, StateInv g → StateInv (es.foldl (fun g e => step dampF e g) g) by
    exact h initGame stateInv_init
  induction es with
  | nil => exact fun g hg => hg
  | cons e es ih =>
    intro g hg
    exact ih (step dampF e g) (step_preserves_inv dampF e g hg)

/-- C1: after any sequence of events at the `Game` boundary, the next event
can change the state only along loading→ready, ready→running, running→dead
or dead→running; a step into `dead` comes only from `running`, and a
completed restart (player model present) always leaves the state
`running`. -/
theorem c1_state_machine (dampF : DampF) (es : List Event) (e : Event) :
    allowedPair (run dampF es).state (step dampF e (run dampF es)).state ∧
    ((step dampF e (run dampF es)).state = .dead →
      (run dampF es).state = .running ∨ (run dampF es).state = .dead) ∧
    (e = .restartCall → (run dampF es).playerLoaded = true →
      (step dampF e (run dampF es)).state = .running) := by
  have hInv := run_inv dampF es
  have hall := step_allowed dampF e (run dampF es) hInv
  refine ⟨hall, ?_, ?_⟩
  · intro hd
    rcases hall with h1 | ⟨_, h2⟩ | ⟨_, h2⟩ | ⟨h1, _⟩ | ⟨_, h2⟩
    · exact Or.inr (h1 ▸ hd)
    · rw [hd] at h2; cases h2
    · rw [hd] at h2; cases h2
    · exact Or.inl h1
    · rw [hd] at h2; cases h2
  · intro he hl
    subst he
    simp [step, restart, hl, setState]

/-- Witness for C1: after loading completes, a restart call ends in the
running state. -/
theorem c1_state_machine_witness :
    (run (fun c _ _ _ => c) [Event.loadDone]).playerLoaded = true ∧
    (step (fun c _ _ _ => c) .restartCall
      (run (fun c _ _ _ => c) [Event.loadDone])).state = .running :=
  ⟨by decide, (c1_state_machine (fun c _ _ _ => c) [Event.loadDone]
    .restartCall).2.2 rfl (by decide)⟩

/-- One `updatePlayer` step of an airborne player: velocity picks up
gravity, position integrates the new velocity, and the step either keeps
the player airborne (when the new height stays positive) or lands it
(height clamped to 0, velocity zeroed, grounded again). -/
theorem updatePlayer_airborne (dampF : DampF) (δ : ℚ) (g : GameM)
    (hld : g.playerLoaded = true) (hg : g.grounded = false) :
    (0 < g.playerY + (g.playerYVel - g.config.gravity * δ) * δ →
       (updatePlayer dampF δ g).playerY =
         g.playerY + (g.playerYVel - g.config.gravity * δ) * δ ∧
       (updatePlayer dampF δ g).playerYVel =
         g.playerYVel - g.config.gravity * δ ∧
       (updatePlayer dampF δ g).grounded = false) ∧
    (g.playerY + (g.playerYVel - g.config.gravity * δ) * δ ≤ 0 →
       (updatePlayer dampF δ g).playerY = 0 ∧
       (updatePlayer dampF δ g).playerYVel = 0 ∧
       (updatePlayer dampF δ g).grounded = true) := by
  constructor <;> intro h0
  · simp only [updatePlayer, hld, hg, Bool.not_true, Bool.not_false,
      Bool.false_eq_true, if_false, if_true]
    rw [if_neg (not_le.mpr h0)]
    exact ⟨rfl, rfl, rfl⟩
  · simp only [updatePlayer, hld, hg, Bool.not_true, Bool.not_false,
      Bool.false_eq_true, if_false, if_true]
    rw [if_pos h0]
    exact ⟨rfl, rfl, rfl⟩

/-- While the closed-form height stays positive, the iterated player update
follows the closed-form trajectory exactly. -/
theorem jump_traj (dampF : DampF) (δ : ℚ) (g1 : GameM)
    (hld : g1.playerLoaded = true) (hgrav : g1.config.gravity = 213 / 5)
    (hg : g1.grounded = false) (hy : g1.playerY = 0) (hv : g1.playerYVel = 14) :
    ∀ k : ℕ, (∀ j : ℕ, 1 ≤ j → j ≤ k → 0 < jumpHeight δ j) →
      (playerIter dampF δ g1 k).playerY = jumpHeight δ k ∧
      (playerIter dampF δ g1 k).playerYVel = jumpVel δ k ∧
      (playerIter dampF δ g1 k).grounded = false ∧
      (playerIter dampF δ g1 k).playerLoaded = true ∧
      (playerIter dampF δ g1 k).config.gravity = 213 / 5 := by
  intro k
  induction k with
  | zero =>
    intro _
    refine ⟨?_, ?_, hg, hld, hgrav⟩
    · rw [show playerIter dampF δ g1 0 = g1 from rfl, hy]
      simp only [jumpHeight]
      push_cast
      ring
    · rw [show playerIter dampF δ g1 0 = g1 from rfl, hv]
      simp only [jumpVel]
      push_cast
      ring
  | succ k ih =>
    intro hpre
    have ihh := ih (fun j hj1 hjk => hpre j hj1 (le_trans hjk (Nat.le_succ k)))
    have hstep : playerIter dampF δ g1 (k + 1) =
        updatePlayer dampF δ (playerIter dampF δ g1 k) := by
      simp [playerIter, Function.iterate_succ_apply']
    have hexpr : (playerIter dampF δ g1 k).playerY +
        ((playerIter dampF δ g1 k).playerYVel -
          (playerIter dampF δ g1 k).config.gravity * δ) * δ =
        jumpHeight δ (k + 1) := by
      rw [ihh.1, ihh.2.1, ihh.2.2.2.2]
      simp only [jumpHeight, jumpVel]
      push_cast
      ring
    have hpos : 0 < (playerIter dampF δ g1 k).playerY +
        ((playerIter dampF δ g1 k).playerYVel -
          (playerIter dampF δ g1 k).config.gravity * δ) * δ := by
      rw [hexpr]
      exact hpre (k + 1) (by omega) (le_refl _)
    have hair := (updatePlayer_airborne dampF δ (playerIter dampF δ g1 k)
      ihh.2.2.2.1 ihh.2.2.1).1 hpos
    have hbasic := updatePlayer_basic dampF δ (playerIter dampF δ g1 k)
    rw [hstep]
    refine ⟨?_, ?_, hair.2.2, ?_, ?_⟩
    · rw [hair.1, hexpr]
    · rw [hair.2.1, ihh.2.1, ihh.2.2.2.2]
      simp only [jumpVel]
      push_cast
      ring
    · rw [hbasic.2.1]
      exact ihh.2.2.2.1
    · rw [hbasic.2.2]
      exact ihh.2.2.2.2

/-- When the closed-form height first becomes non-positive, the iterated
player update lands: height clamped to 0, velocity zeroed, grounded. -/
theorem jump_land (dampF : DampF) (δ : ℚ) (g1 : GameM)
    (hld : g1.playerLoaded = true) (hgrav : g1.config.gravity = 213 / 5)
    (hg : g1.grounded = false) (hy : g1.playerY = 0) (hv : g1.playerYVel = 14)
    (N : ℕ) (hN : 1 ≤ N)
    (hpre : ∀ j : ℕ, 1 ≤ j → j ≤ N - 1 → 0 < jumpHeight δ j)
    (hland : jumpHeight δ N ≤ 0) :
    (playerIter dampF δ g1 N).playerY = 0 ∧
    (playerIter dampF δ g1 N).playerYVel = 0 ∧
    (playerIter dampF δ g1 N).grounded = true := by
  obtain ⟨M, rfl⟩ : ∃ M, N = M + 1 := ⟨N - 1, by omega⟩
  have ihh := jump_traj dampF δ g1 hld hgrav hg hy hv M
    (fun j hj1 hjM => hpre j hj1 (by omega))
  have hstep : playerIter dampF δ g1 (M + 1) =
      updatePlayer dampF δ (playerIter dampF δ g1 M) := by
    simp [playerIter, Function.iterate_succ_apply']
  have hexpr : (playerIter dampF δ g1 M).playerY +
      ((playerIter dampF δ g1 M).playerYVel -
        (playerIter dampF δ g1 M).config.gravity * δ) * δ =
      jumpHeight δ (M + 1) := by
    rw [ihh.1, ihh.2.1, ihh.2.2.2.2]
    simp only [jumpHeight, jumpVel]
    push_cast
    ring
  have hneg : (playerIter dampF δ g1 M).playerY +
      ((playerIter dampF δ g1 M).playerYVel -
        (playerIter dampF δ g1 M).config.gravity * δ) * δ ≤ 0 := by
    rw [hexpr]
    exact hland
  have hair := (updatePlayer_airborne dampF δ (playerIter dampF δ g1 M)
    ihh.2.2.2.1 ihh.2.2.1).2 hneg
  rw [hstep]
  exact ⟨hair.1, hair.2.1, hair.2.2⟩

/-- The closed-form jump height is positive while `(j+1)·δ` is below the
ideal flight time `140/213`. -/
theorem jumpHeight_pos (δ : ℚ) (hδ : 0 < δ) (j : ℕ) (hj : 1 ≤ j)
    (h : ((j : ℚ) + 1) * δ < 140 / 213) : 0 < jumpHeight δ j := by
  have hfac : jumpHeight δ j =
      (j : ℚ) * δ * (14 - 213 / 10 * (((j : ℚ) + 1) * δ)) := by
    simp only [jumpHeight]
    ring
  rw [hfac]
  have hj1 : (1 : ℚ) ≤ (j : ℚ) := by exact_mod_cast hj
  have h1 : 0 < (j : ℚ) * δ := mul_pos (by linarith) hδ
  have h2 : 0 < 14 - 213 / 10 * (((j : ℚ) + 1) * δ) := by linarith
  exact mul_pos h1 h2

/-- The closed-form jump height is non-positive once `(j+1)·δ` reaches the
ideal flight time `140/213`. -/
theorem jumpHeight_nonpos (δ : ℚ) (hδ : 0 < δ) (j : ℕ)
    (h : 140 / 213 ≤ ((j : ℚ) + 1) * δ) : jumpHeight δ j ≤ 0 := by
  have hfac : jumpHeight δ j =
      (j : ℚ) * δ * (14 - 213 / 10 * (((j : ℚ) + 1) * δ)) := by
    simp only [jumpHeight]
    ring
  rw [hfac]
  have h1 : 0 ≤ (j : ℚ) * δ :=
    mul_nonneg (by exact_mod_cast Nat.zero_le j) (le_of_lt hδ)
  have h2 : 14 - 213 / 10 * (((j : ℚ) + 1) * δ) ≤ 0 := by linarith
  exact mul_nonpos_of_nonneg_of_nonpos h1 h2

set_option maxHeartbeats 1000000 in
/-- C6: pressing the jump key while grounded (in the running state) sets
the vertical velocity to the impulse 14 and makes the player airborne;
pressing it while airborne changes nothing; and under constant per-frame
integration with gravity `42.6 = 213/5` and any fixed positive delta there
is a unique landing frame `N` — airborne strictly before, grounded with
`y = 0` and zero velocity at `N` — whose time `N·δ` is within one frame of
the closed-form flight time `2·14/42.6 = 140/213` seconds. -/
theorem c6_jump_physics (dampF : DampF) (g : GameM) (δ : ℚ)
    (hst : g.state = .running) (hld : g.playerLoaded = true)
    (hg : g.grounded = true) (hy : g.playerY = 0)
    (hgrav : g.config.gravity = 213 / 5) (hδ : 0 < δ) :
    (onKeyDown .space g).playerYVel = 14 ∧
    (onKeyDown .space g).grounded = false ∧
    (∀ g' : GameM, g'.grounded = false → onKeyDown .space g' = g') ∧
    (∃ N : ℕ, 1 ≤ N ∧
      (∀ k : ℕ, k < N →
        (playerIter dampF δ (onKeyDown .space g) k).grounded = false) ∧
      (playerIter dampF δ (onKeyDown .space g) N).grounded = true ∧
      (playerIter dampF δ (onKeyDown .space g) N).playerY = 0 ∧
      (playerIter dampF δ (onKeyDown .space g) N).playerYVel = 0 ∧
      2 * 14 / (213 / 5) - δ ≤ (N : ℚ) * δ ∧
      (N : ℚ) * δ ≤ 2 * 14 / (213 / 5) + δ) := by
  have hkey : onKeyDown .space g = { g with grounded := false, playerYVel := 14 } := by
    simp [onKeyDown, hst, hg]
  have hnoop : ∀ g' : GameM, g'.grounded = false → onKeyDown .space g' = g' := by
    intro g' hgf
    simp only [onKeyDown]
    split_ifs <;> simp_all
  refine ⟨by rw [hkey], by rw [hkey], hnoop, ?_⟩
  -- facts about the post-keypress state
  have h1ld : (onKeyDown .space g).playerLoaded = true := by rw [hkey]; exact hld
  have h1gr : (onKeyDown .space g).config.gravity = 213 / 5 := by rw [hkey]; exact hgrav
  have h1g : (onKeyDown .space g).grounded = false := by rw [hkey]
  have h1y : (onKeyDown .space g).playerY = 0 := by rw [hkey]; exact hy
  have h1v : (onKeyDown .space g).playerYVel = 14 := by rw [hkey]
  -- the landing frame
  have hδne : δ ≠ 0 := ne_of_gt hδ
  set q : ℚ := 140 / 213 / δ with hqdef
  have hq_pos : 0 < q := div_pos (by norm_num) hδ
  have hqδ : q * δ = 140 / 213 := by
    rw [hqdef]
    exact div_mul_cancel₀ _ hδne
  set Nz : ℤ := max 1 (⌈q⌉ - 1) with hNzdef
  have hNz1 : 1 ≤ Nz := le_max_left _ _
  have hceil_ge : (q : ℚ) ≤ (⌈q⌉ : ℚ) := Int.le_ceil q
  have hceil_lt : ((⌈q⌉ : ℤ) : ℚ) < q + 1 := by exact_mod_cast Int.ceil_lt_add_one q
  have hNz_ge : q - 1 ≤ (Nz : ℚ) := by
    have : ((⌈q⌉ - 1 : ℤ) : ℚ) ≤ (Nz : ℚ) := by
      exact_mod_cast le_max_right 1 (⌈q⌉ - 1)
    push_cast at this
    linarith
  have hNz_land : q ≤ (Nz : ℚ) + 1 := by
    rcases max_cases 1 (⌈q⌉ - 1) with ⟨hmv, hmle⟩ | ⟨hmv, hmlt⟩
    · -- Nz = 1 and ⌈q⌉ - 1 ≤ 1, so q ≤ ⌈q⌉ ≤ 2
      have h2 : ((⌈q⌉ : ℤ) : ℚ) ≤ 2 := by exact_mod_cast (by omega : (⌈q⌉ : ℤ) ≤ 2)
      rw [hNzdef, hmv]
      push_cast
      linarith
    · -- Nz = ⌈q⌉ - 1, so Nz + 1 = ⌈q⌉ ≥ q
      rw [hNzdef, hmv]
      push_cast
      linarith
  have hNz_ub : (Nz : ℚ) * δ ≤ 2 * 14 / (213 / 5) + δ := by
    have hT : (2 * 14 / (213 / 5) : ℚ) = 140 / 213 := by norm_num
    rcases max_cases 1 (⌈q⌉ - 1) with ⟨hmv, hmle⟩ | ⟨hmv, hmlt⟩
    · rw [hNzdef, hmv, hT]
      push_cast
      nlinarith [hqδ, hq_pos, hδ]
    · rw [hNzdef, hmv, hT]
      have hlt : ((⌈q⌉ - 1 : ℤ) : ℚ) < q := by push_cast; linarith
      have := mul_lt_mul_of_pos_right hlt hδ
      rw [hqδ] at this
      push_cast at this ⊢
      linarith
  refine ⟨Nz.toNat, ?_, ?_, ?_, ?_, ?_, ?_, ?_⟩
  · omega
  · -- airborne strictly before the landing frame
    intro k hk
    cases Nat.eq_zero_or_pos k with
    | inl h0 =>
      subst h0
      exact h1g
    | inr hk1 =>
      have hkpre : ∀ j : ℕ, 1 ≤ j → j ≤ k → 0 < jumpHeight δ j := by
        intro j hj1 hjk
        apply jumpHeight_pos δ hδ j hj1
        have hjz : (j : ℤ) + 1 ≤ Nz := by omega
        have hjq : ((j : ℚ) + 1) ≤ (Nz : ℚ) := by exact_mod_cast hjz
        have hNlt : (Nz : ℚ) < q := by
          rcases max_cases 1 (⌈q⌉ - 1) with ⟨hmv, hmle⟩ | ⟨hmv, hmlt⟩
          · -- Nz = 1 and ⌈q⌉ ≤ 2; k < N = 1 contradicts 1 ≤ k
            exfalso
            omega
          · rw [hNzdef, hmv]
            push_cast
            linarith
        have := mul_lt_mul_of_pos_right (lt_of_le_of_lt hjq hNlt) hδ
        rw [hqδ] at this
        linarith
      exact (jump_traj dampF δ (onKeyDown .space g) h1ld h1gr h1g h1y h1v k
        hkpre).2.2.1
  all_goals {
    have hNnat : ((Nz.toNat : ℕ) : ℚ) = (Nz : ℚ) := by
      have : ((Nz.toNat : ℕ) : ℤ) = Nz := Int.toNat_of_nonneg (by omega)
      exact_mod_cast this
    have hNnat1 : 1 ≤ Nz.toNat := by omega
    have hpre : ∀ j : ℕ, 1 ≤ j → j ≤ Nz.toNat - 1 → 0 < jumpHeight δ j := by
      intro j hj1 hjk
      apply jumpHeight_pos δ hδ j hj1
      have hjz : (j : ℤ) ≤ Nz - 1 := by omega
      have hNlt : (Nz : ℚ) < q := by
        rcases max_cases 1 (⌈q⌉ - 1) with ⟨hmv, hmle⟩ | ⟨hmv, hmlt⟩
        · exfalso
          omega
        · rw [hNzdef, hmv]
          push_cast
          linarith
      have hjq : ((j : ℚ) + 1) ≤ (Nz : ℚ) := by
        have : (j : ℤ) + 1 ≤ Nz := by omega
        exact_mod_cast this
      have := mul_lt_mul_of_pos_right (lt_of_le_of_lt hjq hNlt) hδ
      rw [hqδ] at this
      linarith
    have hland : jumpHeight δ Nz.toNat ≤ 0 := by
      apply jumpHeight_nonpos δ hδ
      have : q * δ ≤ ((Nz : ℚ) + 1) * δ :=
        mul_le_mul_of_nonneg_right hNz_land (le_of_lt hδ)
      rw [hqδ] at this
      rw [hNnat]
      linarith
    have hfin := jump_land dampF δ (onKeyDown .space g) h1ld h1gr h1g h1y h1v
      Nz.toNat hNnat1 hpre hland
    first
      | exact hfin.2.2
      | exact hfin.1
      | exact hfin.2.1
      | -- the two time bounds, using hNz_ge and hNz_ub
        (rw [show (2 * 14 / (213 / 5) : ℚ) = 140 / 213 by norm_num, hNnat]
         have := mul_le_mul_of_nonneg_right hNz_ge (le_of_lt hδ)
         rw [sub_mul, one_mul, hqδ] at this
         linarith)
  }

/-- Witness for C6: jumping right after a restart, at 10 frames per
second. -/
theorem c6_jump_physics_witness :
    (restart (loadDone initGame)).state = GState.running ∧
    (restart (loadDone initGame)).playerLoaded = true ∧
    (restart (loadDone initGame)).grounded = true ∧
    (restart (loadDone initGame)).playerY = 0 ∧
    (restart (loadDone initGame)).config.gravity = 213 / 5 ∧
    (0 : ℚ) < 1 / 10 ∧
    (onKeyDown .space (restart (loadDone initGame))).playerYVel = 14 ∧
    (∃ N : ℕ, 1 ≤ N ∧
      (∀ k : ℕ, k < N →
        (playerIter (fun c _ _ _ => c) (1 / 10)
          (onKeyDown .space (restart (loadDone initGame))) k).grounded = false) ∧
      (playerIter (fun c _ _ _ => c) (1 / 10)
        (onKeyDown .space (restart (loadDone initGame))) N).grounded = true ∧
      (playerIter (fun c _ _ _ => c) (1 / 10)
        (onKeyDown .space (restart (loadDone initGame))) N).playerY = 0 ∧
      (playerIter (fun c _ _ _ => c) (1 / 10)
        (onKeyDown .space (restart (loadDone initGame))) N).playerYVel = 0 ∧
      2 * 14 / (213 / 5) - 1 / 10 ≤ (N : ℚ) * (1 / 10) ∧
      (N : ℚ) * (1 / 10) ≤ 2 * 14 / (213 / 5) + 1 / 10) := by
  have h := c6_jump_physics (fun c _ _ _ => c) (restart (loadDone initGame))
    (1 / 10) rfl rfl rfl rfl rfl (by norm_num)
  exact ⟨rfl, rfl, rfl, rfl, rfl, by norm_num, h.1, h.2.2.2⟩

end Runner
